import Mathlib

/-!
Shallow embedding of `src/pow.cpp` (proof-of-work difficulty logic).

The file models:
* the compact (exponent + mantissa) target encoding (`SetCompact` / `GetCompact`),
* the retarget computation `CalculateNextWorkRequired`,
* the policy `GetNextWorkRequired` (boundary test, minimum-difficulty exception,
  ancestor walk), and
* the verifier `CheckProofOfWork`.

256-bit unsigned values are modelled as `Nat` with explicit `% 2 ^ 256` where the
container's width matters; C++ `int64_t` is modelled as `Int`, with `Int.tdiv` /
`Int.tmod` for C++ truncating division and remainder. Code of the repository that is
only declared, not defined, under `src/` (`arith_uint256`'s compact conversions,
`CBlockIndex` accessors, `Consensus::Params::DifficultyAdjustmentInterval`) is
modelled from the spec, as marked on each such definition.
-/

/-- Number of significant bytes of `n`, computed with explicit fuel so that it
reduces in the kernel; `byteLen` below supplies fuel 64, enough for every value
below `256 ^ 64` (all 256-bit quantities). -/
def byteLenAux : Nat → Nat → Nat
  | 0, _ => 0
  | fuel + 1, n => if n = 0 then 0 else byteLenAux fuel (n / 256) + 1

/-- Byte length of a (at most 512-bit) natural number: the minimal `k` with
`n < 256 ^ k`. This models `arith_uint256::bits()` rounded up to whole bytes,
i.e. the `nSize = (bits() + 7) / 8` computation of the compact encoder. -/
def byteLen (n : Nat) : Nat := byteLenAux 64 n

/-- Modelled from the spec: `arith_uint256::GetCompact` is declared outside this
repository's sources. Per the spec (§4.1 encode): take the minimal byte length E of
`t`; the mantissa is the top three significant bytes (small values are shifted left
into the three-byte window); if the top mantissa bit `0x00800000` would be set (it
would be misread as the sign flag), shift the mantissa right one byte and increment
E; pack E into the top byte of the 32-bit word and the mantissa into the low three
bytes. The sign bit is never emitted for a non-negative target. -/
def GetCompact (t : Nat) : Nat :=
  let nSize := byteLen t
  let nCompact := if nSize ≤ 3 then t * 256 ^ (3 - nSize) else t / 256 ^ (nSize - 3)
  if 0x00800000 ≤ nCompact then (nSize + 1) * 0x1000000 + nCompact / 256
  else nSize * 0x1000000 + nCompact

/-- Result of decoding a compact encoding: the 256-bit magnitude and the two
out-of-band flags. -/
structure CompactDecoded where
  target : Nat
  negative : Bool
  overflow : Bool
deriving DecidableEq

/-- Modelled from the spec: `arith_uint256::SetCompact` is declared outside this
repository's sources. Per the spec (§3, §4.1 decode): the exponent `nSize` is the
top byte of the 32-bit word, the mantissa `nWord` its low 23 bits; for `nSize ≤ 3`
the target is the mantissa shifted right by `8*(3-nSize)` bits, otherwise the
mantissa shifted left by `8*(nSize-3)` bits inside the 256-bit container;
`negative` holds iff the mantissa is nonzero and bit `0x00800000` is set;
`overflow` holds iff the shift would place nonzero mantissa bits beyond the
256-bit width. -/
def SetCompact (nCompact : Nat) : CompactDecoded :=
  let c := nCompact % 0x100000000
  let nSize := c / 0x1000000
  let nWord := c % 0x800000
  { target := if nSize ≤ 3 then nWord / 256 ^ (3 - nSize)
      else nWord * 256 ^ (nSize - 3) % 2 ^ 256
    negative := decide (nWord ≠ 0) && decide (c / 0x800000 % 2 = 1)
    overflow := decide (nWord ≠ 0) &&
      (decide (nSize > 34) || (decide (nWord > 0xff) && decide (nSize > 33)) ||
        (decide (nWord > 0xffff) && decide (nSize > 32))) }

/-- Consensus parameters read by `pow.cpp` (`Consensus::Params`): the 256-bit
`powLimit` as a `Nat`, the two timing parameters as `Int` (C++ `int64_t`), and the
two policy flags. -/
structure ConsensusParams where
  powLimit : Nat
  nPowTargetTimespan : Int
  nPowTargetSpacing : Int
  fPowAllowMinDifficultyBlocks : Bool
  fPowNoRetargeting : Bool
deriving DecidableEq

/-- Modelled from the spec: `Consensus::Params::DifficultyAdjustmentInterval` is
declared outside this repository's sources; per the spec the retarget interval is
derived as `targetTimespan / targetSpacing` (C++ `int64_t` division truncates
toward zero, hence `Int.tdiv`). -/
def ConsensusParams.DifficultyAdjustmentInterval (p : ConsensusParams) : Int :=
  Int.tdiv p.nPowTargetTimespan p.nPowTargetSpacing

/-- A chain index entry (`CBlockIndex`): height, timestamp, compact difficulty
field, and the parent link. A `root` has a null `pprev`; a `node` links to its
predecessor. -/
inductive CBlockIndex : Type where
  | root (nHeight nTime : Int) (nBits : Nat) : CBlockIndex
  | node (nHeight nTime : Int) (nBits : Nat) (prev : CBlockIndex) : CBlockIndex
deriving DecidableEq

def CBlockIndex.nHeight : CBlockIndex → Int
  | .root h _ _ => h
  | .node h _ _ _ => h

def CBlockIndex.nTime : CBlockIndex → Int
  | .root _ t _ => t
  | .node _ t _ _ => t

def CBlockIndex.nBits : CBlockIndex → Nat
  | .root _ _ b => b
  | .node _ _ b _ => b

def CBlockIndex.pprev : CBlockIndex → Option CBlockIndex
  | .root _ _ _ => none
  | .node _ _ _ p => some p

/-- Modelled from the spec: `CBlockIndex::GetBlockTime` is declared outside this
repository's sources; it returns the block's timestamp. -/
def CBlockIndex.GetBlockTime (b : CBlockIndex) : Int := b.nTime

/-- Modelled from the spec: `CBlockIndex::GetAncestor` is declared outside this
repository's sources; per the spec it returns the ancestor at the requested
height, or none if the height is out of range. -/
def CBlockIndex.GetAncestor : CBlockIndex → Int → Option CBlockIndex
  | .root h t bits, ht => if ht = h then some (.root h t bits) else none
  | .node h t bits p, ht =>
      if ht > h ∨ ht < 0 then none
      else if ht = h then some (.node h t bits p)
      else p.GetAncestor ht

/-- The list of ancestors of a block, starting at the block itself and ending at
the parentless root. -/
def ancestors : CBlockIndex → List CBlockIndex
  | .root h t b => [.root h t b]
  | .node h t b p => .node h t b p :: ancestors p

/-- The parentless end of the `pprev` chain. -/
def lastAncestor : CBlockIndex → CBlockIndex
  | .root h t b => .root h t b
  | .node _ _ _ p => lastAncestor p

/-- The minimum-difficulty ancestor walk of `GetNextWorkRequired`
(`pow.cpp` lines 33-36): starting at the tip, step to the parent while a parent
exists, the height is not a retarget boundary, and the block carries the
minimum-difficulty compact value; return the bits of the block where the loop
stops. -/
def minDifficultyWalk (interval : Int) (limit : Nat) : CBlockIndex → Nat
  | .root _ _ bits => bits
  | .node h _ bits p =>
      if Int.tmod h interval ≠ 0 ∧ bits = limit then minDifficultyWalk interval limit p
      else bits

/-- The timespan clamp of `CalculateNextWorkRequired` (`pow.cpp` lines 67-72):
values below `targetTimespan/4` are raised to it, values above `targetTimespan*4`
are lowered to it (C++ `int64_t` division truncates toward zero). -/
def clampTimespan (nPowTargetTimespan nActualTimespan : Int) : Int :=
  let lo := Int.tdiv nPowTargetTimespan 4
  let a := if nActualTimespan < lo then lo else nActualTimespan
  if a > nPowTargetTimespan * 4 then nPowTargetTimespan * 4 else a

/-- The raw retarget product of `CalculateNextWorkRequired` (`pow.cpp` lines
87-89): decode the previous compact value, multiply by the clamped timespan, then
divide by the target timespan. Modelled from the spec: the wide arithmetic of
`arith_uint256` is defined outside this repository's sources; per the spec (§4.2
step 5) it is exact, non-overflowing unsigned arithmetic, so the product is taken
over unbounded `Nat`. -/
def newTargetRaw (nBits : Nat) (nActualTimespan nPowTargetTimespan : Int) : Nat :=
  (SetCompact nBits).target * nActualTimespan.toNat / nPowTargetTimespan.toNat

/-- The powLimit cap of `CalculateNextWorkRequired` (`pow.cpp` lines 91-92). -/
def cappedNewTarget (nBits : Nat) (nActualTimespan nPowTargetTimespan : Int)
    (limit : Nat) : Nat :=
  if newTargetRaw nBits nActualTimespan nPowTargetTimespan > limit then limit
  else newTargetRaw nBits nActualTimespan nPowTargetTimespan

/-- `CalculateNextWorkRequired` (`pow.cpp` lines 60-95): on the no-retargeting
fast path return the previous bits unchanged; otherwise clamp the actual
timespan, scale the decoded previous target, cap at `powLimit`, and re-encode. -/
def CalculateNextWorkRequired (pindexLast : CBlockIndex) (nFirstBlockTime : Int)
    (params : ConsensusParams) : Nat :=
  if params.fPowNoRetargeting = true then pindexLast.nBits
  else
    GetCompact (cappedNewTarget pindexLast.nBits
      (clampTimespan params.nPowTargetTimespan
        (pindexLast.GetBlockTime - nFirstBlockTime))
      params.nPowTargetTimespan params.powLimit)

/-- The retarget-boundary branch of `GetNextWorkRequired` (`pow.cpp` lines
42-49): locate the first block of the just-completed interval and recompute; the
two C++ assertions (`nHeightFirst >= 0`, `pindexFirst` non-null) are modelled as
`none`. -/
def retargetBranch (pindexLast : CBlockIndex) (params : ConsensusParams) :
    Option Nat :=
  let nHeightFirst := pindexLast.nHeight - (params.DifficultyAdjustmentInterval - 1)
  if nHeightFirst < 0 then none
  else
    match pindexLast.GetAncestor nHeightFirst with
    | none => none
    | some pindexFirst =>
        some (CalculateNextWorkRequired pindexLast pindexFirst.GetBlockTime params)

/-- `GetNextWorkRequired` (`pow.cpp` lines 13-50). The candidate block header is
represented by its timestamp, the only field the function reads. -/
def GetNextWorkRequired (pindexLast : CBlockIndex) (pblockTime : Int)
    (params : ConsensusParams) : Option Nat :=
  let nProofOfWorkLimit := GetCompact params.powLimit
  if Int.tmod (pindexLast.nHeight + 1) params.DifficultyAdjustmentInterval ≠ 0 then
    if params.fPowAllowMinDifficultyBlocks = true then
      if pblockTime > pindexLast.GetBlockTime + params.nPowTargetSpacing * 2 then
        some nProofOfWorkLimit
      else
        some (minDifficultyWalk params.DifficultyAdjustmentInterval
          nProofOfWorkLimit pindexLast)
    else some pindexLast.nBits
  else retargetBranch pindexLast params

/-- `CheckProofOfWork` (`pow.cpp` lines 103-120): decode the claimed compact
value; reject on a negative sign, zero target, overflow, or a target above
`powLimit`; then reject iff the hash exceeds the target. -/
def CheckProofOfWork (hash nBits : Nat) (params : ConsensusParams) : Bool :=
  if (SetCompact nBits).negative = true ∨ (SetCompact nBits).target = 0 ∨
      (SetCompact nBits).overflow = true ∨
      (SetCompact nBits).target > params.powLimit then false
  else if hash > (SetCompact nBits).target then false
  else true

/-- Concrete parameters for the C3 counterexample: retarget interval 2, testnet
min-difficulty rule on. -/
def pC3 : ConsensusParams := ConsensusParams.mk 65535 8 4 true false

/-- Concrete two-block chain for the C3 counterexample: tip at height 1 (a
retarget boundary for interval 2) above a genesis at height 0. -/
def tipC3 : CBlockIndex :=
  CBlockIndex.node 1 100 0x03000001 (CBlockIndex.root 0 0 0x03000001)

/-- Concrete parameters with retarget interval 4 and the min-difficulty rule on,
used by several witnesses. -/
def pI4 : ConsensusParams := ConsensusParams.mk 65535 8 2 true false

/-- Concrete parameters with the min-difficulty rule off. -/
def pNoMin : ConsensusParams := ConsensusParams.mk 65535 8 2 false false

/-- Concrete three-block chain for the C4 witness: two minimum-difficulty blocks
above a root at a retarget boundary carrying ordinary bits. -/
def tipC4 : CBlockIndex :=
  CBlockIndex.node 2 100 0x0300ffff
    (CBlockIndex.node 1 50 0x0300ffff (CBlockIndex.root 0 0 999))

/-- Concrete chain for the C10 witness: every block, the parentless root
included, is a non-boundary minimum-difficulty block. -/
def tipC10 : CBlockIndex :=
  CBlockIndex.node 2 10 0x0300ffff (CBlockIndex.root 1 0 0x0300ffff)

/-- Concrete parameters for the first half of the C7 counterexample:
no-retargeting network whose tip bits decode above `powLimit`. -/
def pC7 : ConsensusParams := ConsensusParams.mk 1 8 2 false true

/-- Concrete parameters for the second half of the C7 counterexample and for the
C9 counterexample. -/
def pC9 : ConsensusParams := ConsensusParams.mk (2 ^ 255) 7 2 false false

/-- Concrete tip for the C9 counterexample: previous bits decode to `2 ^ 32`,
and the interval spanned 3 seconds. -/
def tipC9 : CBlockIndex := CBlockIndex.root 5 3 0x05010000

theorem byteLenAux_zero (fuel : Nat) : byteLenAux fuel 0 = 0 := by
  cases fuel <;> simp [byteLenAux]

theorem byteLenAux_spec (fuel : Nat) : ∀ n, n < 256 ^ fuel →
    n < 256 ^ byteLenAux fuel n ∧ (n ≠ 0 → 256 ^ (byteLenAux fuel n - 1) ≤ n) := by
  induction fuel with
  | zero =>
      intro n hn
      have hn0 : n = 0 := by simpa using Nat.lt_one_iff.mp hn
      subst hn0
      simp [byteLenAux]
  | succ fuel ih =>
      intro n hn
      by_cases h0 : n = 0
      · subst h0; simp [byteLenAux]
      · have hrec : n / 256 < 256 ^ fuel := by
          have hmul : n < 256 ^ fuel * 256 := by
            calc n < 256 ^ (fuel + 1) := hn
              _ = 256 ^ fuel * 256 := pow_succ 256 fuel
          omega
        obtain ⟨ih1, ih2⟩ := ih (n / 256) hrec
        simp only [byteLenAux, h0, if_false]
        constructor
        · have h2 : n / 256 + 1 ≤ 256 ^ byteLenAux fuel (n / 256) := ih1
          calc n < (n / 256 + 1) * 256 := by omega
            _ ≤ 256 ^ byteLenAux fuel (n / 256) * 256 := Nat.mul_le_mul_right 256 h2
            _ = 256 ^ (byteLenAux fuel (n / 256) + 1) := (pow_succ 256 _).symm
        · intro _
          by_cases hq : n / 256 = 0
          · simp [hq, byteLenAux_zero]
            omega
          · have hk1 : 1 ≤ byteLenAux fuel (n / 256) := by
              rcases Nat.eq_zero_or_pos (byteLenAux fuel (n / 256)) with hk | hk
              · rw [hk] at ih1; simp at ih1; omega
              · exact hk
            have hlow := ih2 hq
            have hstep : 256 ^ (byteLenAux fuel (n / 256) - 1) * 256 ≤ n / 256 * 256 :=
              Nat.mul_le_mul_right 256 hlow
            have hpow : 256 ^ (byteLenAux fuel (n / 256) - 1) * 256 =
                256 ^ byteLenAux fuel (n / 256) := by
              rw [← pow_succ]
              congr 1
              omega
            have hdm : n / 256 * 256 ≤ n := by omega
            have hfin : 256 ^ byteLenAux fuel (n / 256) ≤ n := by
              rw [← hpow]; exact le_trans hstep hdm
            simpa using hfin

theorem two_pow_256_eq : (2 : Nat) ^ 256 = 256 ^ 32 := by decide

theorem byteLen_lt (n : Nat) (h : n < 2 ^ 256) : n < 256 ^ byteLen n := by
  refine (byteLenAux_spec 64 n ?_).1
  calc n < 2 ^ 256 := h
    _ = 256 ^ 32 := two_pow_256_eq
    _ ≤ 256 ^ 64 := Nat.pow_le_pow_right (by norm_num) (by norm_num)

theorem byteLen_low (n : Nat) (h : n < 2 ^ 256) (h0 : n ≠ 0) :
    256 ^ (byteLen n - 1) ≤ n := by
  refine (byteLenAux_spec 64 n ?_).2 h0
  calc n < 2 ^ 256 := h
    _ = 256 ^ 32 := two_pow_256_eq
    _ ≤ 256 ^ 64 := Nat.pow_le_pow_right (by norm_num) (by norm_num)

theorem byteLen_pos (n : Nat) (h : n < 2 ^ 256) (h0 : n ≠ 0) : 1 ≤ byteLen n := by
  rcases Nat.eq_zero_or_pos (byteLen n) with hk | hk
  · have := byteLen_lt n h
    rw [hk] at this
    simp at this
    omega
  · exact hk

theorem byteLen_le_32 (n : Nat) (h : n < 2 ^ 256) : byteLen n ≤ 32 := by
  by_cases h0 : n = 0
  · subst h0
    simp [byteLen, byteLenAux_zero]
  · have hlow := byteLen_low n h h0
    have : 256 ^ (byteLen n - 1) < 256 ^ 32 := by
      calc 256 ^ (byteLen n - 1) ≤ n := hlow
        _ < 2 ^ 256 := h
        _ = 256 ^ 32 := two_pow_256_eq
    have := (Nat.pow_lt_pow_iff_right (by norm_num : 1 < 256)).mp this
    omega

theorem getCompact_shape (t : Nat) (h0 : t ≠ 0) (h256 : t < 2 ^ 256) :
    ∃ s w, GetCompact t = s * 0x1000000 + w ∧ 1 ≤ s ∧ s ≤ 33 ∧ w < 0x800000 ∧
      (s = 33 → w < 0x10000) ∧
      (if s ≤ 3 then w / 256 ^ (3 - s) else w * 256 ^ (s - 3)) ≤ t := by
  have hs1 : 1 ≤ byteLen t := byteLen_pos t h256 h0
  have hup : t < 256 ^ byteLen t := byteLen_lt t h256
  have hle : byteLen t ≤ 32 := byteLen_le_32 t h256
  by_cases hsz : byteLen t ≤ 3
  · have hm : t * 256 ^ (3 - byteLen t) < 0x1000000 := by
      calc t * 256 ^ (3 - byteLen t) < 256 ^ byteLen t * 256 ^ (3 - byteLen t) :=
            (Nat.mul_lt_mul_right (pow_pos (by norm_num) _)).2 hup
        _ = 256 ^ 3 := by rw [← pow_add]; congr 1; omega
    by_cases hsign : 0x800000 ≤ t * 256 ^ (3 - byteLen t)
    · refine ⟨byteLen t + 1, t * 256 ^ (3 - byteLen t) / 256, ?_, by omega, by omega,
        by omega, by omega, ?_⟩
      · simp only [GetCompact]
        rw [if_pos hsz, if_pos hsign]
      · by_cases hsz2 : byteLen t + 1 ≤ 3
        · rw [if_pos hsz2]
          have e1 : t * 256 ^ (3 - byteLen t) / 256 / 256 ^ (3 - (byteLen t + 1)) =
              t * 256 ^ (3 - byteLen t) / (256 * 256 ^ (3 - (byteLen t + 1))) :=
            Nat.div_div_eq_div_mul _ _ _
          have e2 : 256 * 256 ^ (3 - (byteLen t + 1)) = 256 ^ (3 - byteLen t) := by
            rw [← pow_succ']
            congr 1
            omega
          rw [e1, e2, Nat.mul_div_cancel t (pow_pos (by norm_num) _)]
        · rw [if_neg hsz2]
          have h3 : byteLen t = 3 := by omega
          rw [h3]
          norm_num
          exact Nat.div_mul_le_self t 256
    · refine ⟨byteLen t, t * 256 ^ (3 - byteLen t), ?_, hs1, by omega, by omega,
        by omega, ?_⟩
      · simp only [GetCompact]
        rw [if_pos hsz, if_neg hsign]
      · rw [if_pos hsz, Nat.mul_div_cancel t (pow_pos (by norm_num) _)]
  · have hP : 0 < 256 ^ (byteLen t - 3) := pow_pos (by norm_num) _
    have hmup : t / 256 ^ (byteLen t - 3) < 0x1000000 := by
      rw [Nat.div_lt_iff_lt_mul hP]
      calc t < 256 ^ byteLen t := hup
        _ = 0x1000000 * 256 ^ (byteLen t - 3) := by
            rw [show (0x1000000 : Nat) = 256 ^ 3 from rfl, ← pow_add]
            congr 1
            omega
    by_cases hsign : 0x800000 ≤ t / 256 ^ (byteLen t - 3)
    · refine ⟨byteLen t + 1, t / 256 ^ (byteLen t - 3) / 256, ?_, by omega, by omega,
        by omega, ?_, ?_⟩
      · simp only [GetCompact]
        rw [if_neg hsz, if_pos hsign]
      · intro _
        omega
      · rw [if_neg (by omega : ¬ byteLen t + 1 ≤ 3)]
        have e1 : byteLen t + 1 - 3 = (byteLen t - 3) + 1 := by omega
        rw [e1, pow_succ]
        calc t / 256 ^ (byteLen t - 3) / 256 * (256 ^ (byteLen t - 3) * 256)
            = t / 256 ^ (byteLen t - 3) / 256 * 256 * 256 ^ (byteLen t - 3) := by ring
          _ ≤ t / 256 ^ (byteLen t - 3) * 256 ^ (byteLen t - 3) :=
              Nat.mul_le_mul_right _ (Nat.div_mul_le_self _ 256)
          _ ≤ t := Nat.div_mul_le_self _ _
    · refine ⟨byteLen t, t / 256 ^ (byteLen t - 3), ?_, by omega, by omega, by omega,
        ?_, ?_⟩
      · simp only [GetCompact]
        rw [if_neg hsz, if_neg hsign]
      · intro h33
        omega
      · rw [if_neg hsz]
        exact Nat.div_mul_le_self t _

theorem setCompact_target_eq (s w : Nat) (hs : s ≤ 33) (hw : w < 0x800000) :
    (SetCompact (s * 0x1000000 + w)).target =
      if s ≤ 3 then w / 256 ^ (3 - s) else w * 256 ^ (s - 3) % 2 ^ 256 := by
  have h1 : (s * 0x1000000 + w) % 0x100000000 / 0x1000000 = s := by omega
  have h2 : (s * 0x1000000 + w) % 0x100000000 % 0x800000 = w := by omega
  simp only [SetCompact, h1, h2]

theorem setCompact_overflow_false (s w : Nat) (hs : s ≤ 33) (hw : w < 0x800000)
    (h33 : s = 33 → w < 0x10000) :
    (SetCompact (s * 0x1000000 + w)).overflow = false := by
  have h1 : (s * 0x1000000 + w) % 0x100000000 / 0x1000000 = s := by omega
  have h2 : (s * 0x1000000 + w) % 0x100000000 % 0x800000 = w := by omega
  simp only [SetCompact, h1, h2]
  have d1 : decide (s > 34) = false := decide_eq_false (by omega)
  have d2 : decide (s > 33) = false := decide_eq_false (by omega)
  have d3 : (decide (w > 0xffff) && decide (s > 32)) = false := by
    by_cases h : s > 32
    · have hw16 : w < 0x10000 := h33 (by omega)
      rw [decide_eq_false (by omega : ¬ w > 0xffff), Bool.false_and]
    · rw [decide_eq_false h, Bool.and_false]
  rw [d1, d2, d3]
  simp

theorem setCompact_getCompact_le (t : Nat) (ht : t < 2 ^ 256) :
    (SetCompact (GetCompact t)).target ≤ t ∧
      (SetCompact (GetCompact t)).overflow = false := by
  by_cases h0 : t = 0
  · subst h0
    exact ⟨by decide, by decide⟩
  · obtain ⟨s, w, hEq, hs1, hs33, hw, h33, hb⟩ := getCompact_shape t h0 ht
    rw [hEq]
    refine ⟨?_, setCompact_overflow_false s w hs33 hw h33⟩
    rw [setCompact_target_eq s w hs33 hw]
    by_cases hs3 : s ≤ 3
    · rw [if_pos hs3]
      rw [if_pos hs3] at hb
      exact hb
    · rw [if_neg hs3]
      rw [if_neg hs3] at hb
      have hlt : w * 256 ^ (s - 3) < 2 ^ 256 := lt_of_le_of_lt hb ht
      rw [Nat.mod_eq_of_lt hlt]
      exact hb

theorem minDifficultyWalk_eq_find (I : Int) (L : Nat) (b : CBlockIndex) :
    minDifficultyWalk I L b =
      (match (ancestors b).find?
          (fun a => decide (Int.tmod a.nHeight I = 0 ∨ a.nBits ≠ L)) with
        | some x => x.nBits
        | none => (lastAncestor b).nBits) := by
  induction b with
  | root h t bits =>
      by_cases hp : Int.tmod h I = 0 ∨ bits ≠ L <;>
        simp [minDifficultyWalk, ancestors, lastAncestor, List.find?, hp,
          CBlockIndex.nHeight, CBlockIndex.nBits]
  | node h t bits p ih =>
      by_cases hp : Int.tmod h I = 0 ∨ bits ≠ L
      · have hw : ¬ (Int.tmod h I ≠ 0 ∧ bits = L) := by tauto
        simp [minDifficultyWalk, ancestors, hw, hp, CBlockIndex.nHeight,
          CBlockIndex.nBits]
      · have hw : Int.tmod h I ≠ 0 ∧ bits = L := by tauto
        simp [minDifficultyWalk, ancestors, lastAncestor, hw, hp, ih,
          CBlockIndex.nHeight, CBlockIndex.nBits]

theorem minDifficultyWalk_all (I : Int) (L : Nat) (b : CBlockIndex)
    (hall : ∀ a ∈ ancestors b, Int.tmod a.nHeight I ≠ 0 ∧ a.nBits = L) :
    minDifficultyWalk I L b = (lastAncestor b).nBits := by
  induction b with
  | root h t bits => rfl
  | node h t bits p ih =>
      have hself : Int.tmod h I ≠ 0 ∧ bits = L := by
        simpa [CBlockIndex.nHeight, CBlockIndex.nBits] using
          hall (CBlockIndex.node h t bits p) (by simp [ancestors])
      have hrest : ∀ a ∈ ancestors p, Int.tmod a.nHeight I ≠ 0 ∧ a.nBits = L :=
        fun a ha => hall a (by simp [ancestors, ha])
      simp [minDifficultyWalk, hself, lastAncestor, ih hrest]

theorem lastAncestor_pprev (b : CBlockIndex) : (lastAncestor b).pprev = none := by
  induction b with
  | root h t bits => rfl
  | node h t bits p ih => simpa [lastAncestor] using ih

/-- C1: for every hash, claimed compact encoding and params, `CheckProofOfWork`
returns false if and only if the decoded encoding is negative, or overflows, or
gives a zero target, or a target above `powLimit`, or the hash strictly exceeds
the decoded target; in every other case it returns true. -/
theorem checkProofOfWork_false_iff (hash nBits : Nat) (p : ConsensusParams) :
    CheckProofOfWork hash nBits p = false ↔
      ((SetCompact nBits).negative = true ∨ (SetCompact nBits).overflow = true ∨
        (SetCompact nBits).target = 0 ∨ (SetCompact nBits).target > p.powLimit ∨
        hash > (SetCompact nBits).target) := by
  unfold CheckProofOfWork
  split
  · next h => simp only [eq_self_iff_true, true_iff]; tauto
  · next h =>
      split
      · next h2 => simp only [eq_self_iff_true, true_iff]; tauto
      · next h2 =>
          simp only [Bool.true_eq_false, false_iff]
          push_neg at h h2
          obtain ⟨hn, h0, hov, hl⟩ := h
          simp only [not_or]
          exact ⟨hn, hov, h0, by omega, by omega⟩

/-- C2: `GetNextWorkRequired` hands control to the retarget computation exactly
when `(chainTip.height + 1) % retargetInterval == 0`, and at every other height
returns the tip's bits unchanged unless the minimum-difficulty exception path
applies (`fPowAllowMinDifficultyBlocks` true). -/
theorem getNextWorkRequired_boundary_policy (tip : CBlockIndex) (t : Int)
    (p : ConsensusParams) :
    (Int.tmod (tip.nHeight + 1) p.DifficultyAdjustmentInterval = 0 →
      GetNextWorkRequired tip t p = retargetBranch tip p) ∧
    (Int.tmod (tip.nHeight + 1) p.DifficultyAdjustmentInterval ≠ 0 →
      p.fPowAllowMinDifficultyBlocks = false →
      GetNextWorkRequired tip t p = some tip.nBits) := by
  constructor
  · intro h
    simp [GetNextWorkRequired, h]
  · intro h hmin
    simp [GetNextWorkRequired, h, hmin]

/-- Witness for C2: a boundary-height tip routes to the retarget branch, and a
non-boundary tip with the min-difficulty rule off keeps its bits. -/
theorem getNextWorkRequired_boundary_policy_witness :
    GetNextWorkRequired (CBlockIndex.root 3 0 5) 0 pI4 =
        retargetBranch (CBlockIndex.root 3 0 5) pI4 ∧
      GetNextWorkRequired (CBlockIndex.root 2 100 777) 0 pNoMin = some 777 :=
  ⟨(getNextWorkRequired_boundary_policy (CBlockIndex.root 3 0 5) 0 pI4).1 (by decide),
    (getNextWorkRequired_boundary_policy (CBlockIndex.root 2 100 777) 0 pNoMin).2
      (by decide) (by decide)⟩

/-- Counterexample to C3 as stated: at a retarget-boundary height the
minimum-difficulty timestamp exception does not fire even though
`fPowAllowMinDifficultyBlocks` is true and the candidate's timestamp gap exceeds
`2 * targetSpacing`; the retarget computation runs instead and returns an
encoding different from that of `powLimit`. -/
theorem getNextWorkRequired_gap_counterexample :
    pC3.fPowAllowMinDifficultyBlocks = true ∧
      (109 : Int) > tipC3.GetBlockTime + pC3.nPowTargetSpacing * 2 ∧
      GetNextWorkRequired tipC3 109 pC3 ≠ some (GetCompact pC3.powLimit) := by
  decide

/-- C3 as amended: with `fPowAllowMinDifficultyBlocks` true and a candidate
timestamp exceeding the tip's by more than `2 * targetSpacing`,
`GetNextWorkRequired` returns the compact encoding of `powLimit` at every
non-boundary height, i.e. whenever `(chainTip.height + 1) % retargetInterval` is
nonzero; at a boundary the retarget computation runs instead. -/
theorem getNextWorkRequired_minDifficulty_gap (tip : CBlockIndex) (t : Int)
    (p : ConsensusParams)
    (hb : Int.tmod (tip.nHeight + 1) p.DifficultyAdjustmentInterval ≠ 0)
    (hmin : p.fPowAllowMinDifficultyBlocks = true)
    (hgap : t > tip.GetBlockTime + p.nPowTargetSpacing * 2) :
    GetNextWorkRequired tip t p = some (GetCompact p.powLimit) := by
  simp [GetNextWorkRequired, hb, hmin, hgap]

/-- Witness for the amended C3: a non-boundary tip with a large timestamp gap
receives the encoded `powLimit`. -/
theorem getNextWorkRequired_minDifficulty_gap_witness :
    Int.tmod ((CBlockIndex.root 2 100 777).nHeight + 1)
        pI4.DifficultyAdjustmentInterval ≠ 0 ∧
      pI4.fPowAllowMinDifficultyBlocks = true ∧
      (109 : Int) > (CBlockIndex.root 2 100 777).GetBlockTime +
        pI4.nPowTargetSpacing * 2 ∧
      GetNextWorkRequired (CBlockIndex.root 2 100 777) 109 pI4 =
        some (GetCompact pI4.powLimit) :=
  ⟨by decide, by decide, by decide,
    getNextWorkRequired_minDifficulty_gap (CBlockIndex.root 2 100 777) 109 pI4
      (by decide) (by decide) (by decide)⟩

/-- C4: on the non-boundary, min-difficulty path with no timestamp gap,
`GetNextWorkRequired` returns the bits of the first ancestor (the tip included)
that is a retarget boundary or does not carry the minimum-difficulty compact
value: the walk continues exactly while `height % interval != 0` and
`bits == encode(powLimit)` hold. -/
theorem getNextWorkRequired_minDifficultyWalk (tip : CBlockIndex) (t : Int)
    (p : ConsensusParams) (x : CBlockIndex)
    (hb : Int.tmod (tip.nHeight + 1) p.DifficultyAdjustmentInterval ≠ 0)
    (hmin : p.fPowAllowMinDifficultyBlocks = true)
    (hgap : ¬ t > tip.GetBlockTime + p.nPowTargetSpacing * 2)
    (hfind : (ancestors tip).find?
        (fun a => decide (Int.tmod a.nHeight p.DifficultyAdjustmentInterval = 0 ∨
          a.nBits ≠ GetCompact p.powLimit)) = some x) :
    GetNextWorkRequired tip t p = some x.nBits := by
  have hwalk : minDifficultyWalk p.DifficultyAdjustmentInterval
      (GetCompact p.powLimit) tip = x.nBits := by
    rw [minDifficultyWalk_eq_find, hfind]
  simp [GetNextWorkRequired, hb, hmin, hgap, hwalk]

/-- Witness for C4: a run of two minimum-difficulty blocks is skipped and the
bits of the boundary root are returned. -/
theorem getNextWorkRequired_minDifficultyWalk_witness :
    (ancestors tipC4).find?
        (fun a => decide (Int.tmod a.nHeight pI4.DifficultyAdjustmentInterval = 0 ∨
          a.nBits ≠ GetCompact pI4.powLimit)) = some (CBlockIndex.root 0 0 999) ∧
      GetNextWorkRequired tipC4 60 pI4 = some 999 :=
  ⟨by decide,
    getNextWorkRequired_minDifficultyWalk tipC4 60 pI4 (CBlockIndex.root 0 0 999)
      (by decide) (by decide) (by decide) (by decide)⟩

/-- C5: for every actual-timespan input, the value used by the retarget
multiplication lies in the closed interval from `targetTimespan/4` to
`targetTimespan*4`; inputs below the lower bound are replaced by it and inputs
above the upper bound by it. -/
theorem clampTimespan_bounds (tt ts : Int) (htt : 0 ≤ tt) :
    Int.tdiv tt 4 ≤ clampTimespan tt ts ∧ clampTimespan tt ts ≤ tt * 4 ∧
      (ts < Int.tdiv tt 4 → clampTimespan tt ts = Int.tdiv tt 4) ∧
      (ts > tt * 4 → clampTimespan tt ts = tt * 4) := by
  have h4 : Int.tdiv tt 4 = tt / 4 := Int.tdiv_eq_ediv htt (by norm_num)
  simp only [clampTimespan, h4]
  split_ifs <;> omega

/-- Witness for C5 at `targetTimespan = 8`, `actualTimespan = 100`. -/
theorem clampTimespan_bounds_witness :
    (0 : Int) ≤ 8 ∧
      (Int.tdiv 8 4 ≤ clampTimespan 8 100 ∧ clampTimespan 8 100 ≤ 8 * 4 ∧
        ((100 : Int) < Int.tdiv 8 4 → clampTimespan 8 100 = Int.tdiv 8 4) ∧
        ((100 : Int) > 8 * 4 → clampTimespan 8 100 = 8 * 4)) :=
  ⟨by decide, clampTimespan_bounds 8 100 (by decide)⟩

/-- C6: the retarget step computes `old * actualTimespan / targetTimespan` with
exact wide arithmetic, multiplying before dividing: the result is the exact
floor of the full product divided by the timespan (so the multiplication loses
no high-order bits for any decodable previous target), and it is at least as
precise as dividing first. -/
theorem newTargetRaw_exact (nBits : Nat) (ts tt : Int) (htt : 0 < tt) :
    newTargetRaw nBits ts tt * tt.toNat ≤ (SetCompact nBits).target * ts.toNat ∧
      (SetCompact nBits).target * ts.toNat <
        newTargetRaw nBits ts tt * tt.toNat + tt.toNat ∧
      (SetCompact nBits).target / tt.toNat * ts.toNat ≤ newTargetRaw nBits ts tt := by
  have hb : 0 < tt.toNat := by omega
  simp only [newTargetRaw]
  refine ⟨Nat.div_mul_le_self _ _, ?_, ?_⟩
  · calc (SetCompact nBits).target * ts.toNat
        < ((SetCompact nBits).target * ts.toNat / tt.toNat + 1) * tt.toNat :=
          (Nat.div_lt_iff_lt_mul hb).1 (Nat.lt_succ_self _)
      _ = (SetCompact nBits).target * ts.toNat / tt.toNat * tt.toNat + tt.toNat := by
          ring
  · rw [Nat.le_div_iff_mul_le hb]
    calc (SetCompact nBits).target / tt.toNat * ts.toNat * tt.toNat
        = (SetCompact nBits).target / tt.toNat * tt.toNat * ts.toNat := by ring
      _ ≤ (SetCompact nBits).target * ts.toNat :=
          Nat.mul_le_mul_right _ (Nat.div_mul_le_self _ _)

/-- Witness for C6 at `nBits = 0x03000005`, timespans 5 and 8. -/
theorem newTargetRaw_exact_witness :
    (0 : Int) < 8 ∧
      (newTargetRaw 0x03000005 5 8 * (8 : Int).toNat ≤
          (SetCompact 0x03000005).target * (5 : Int).toNat ∧
        (SetCompact 0x03000005).target * (5 : Int).toNat <
          newTargetRaw 0x03000005 5 8 * (8 : Int).toNat + (8 : Int).toNat ∧
        (SetCompact 0x03000005).target / (8 : Int).toNat * (5 : Int).toNat ≤
          newTargetRaw 0x03000005 5 8) :=
  ⟨by decide, newTargetRaw_exact 0x03000005 5 8 (by decide)⟩

/-- Counterexample to C7 as stated: with `fPowNoRetargeting` set the previous
bits are returned unchanged, so the decoded result can exceed `powLimit`; and
even on the retargeting path the decoded result can be zero (previous bits
decoding to zero), outside the claimed interval `(0, powLimit]`. -/
theorem calculateNextWorkRequired_range_counterexample :
    pC7.fPowNoRetargeting = true ∧
      (SetCompact (CalculateNextWorkRequired (CBlockIndex.root 0 0 0x03000002) 0
        pC7)).target > pC7.powLimit ∧
      pC9.fPowNoRetargeting = false ∧
      (SetCompact (CalculateNextWorkRequired (CBlockIndex.root 0 10 0) 0
        pC9)).target = 0 := by
  decide

/-- C7 as amended: when `fPowNoRetargeting` is false (and `powLimit` fits in
256 bits), the decoded target of the encoding returned by
`CalculateNextWorkRequired` never exceeds `powLimit`; it may be zero, so the
lower bound of the claimed interval does not hold in general. -/
theorem calculateNextWorkRequired_le_powLimit (tip : CBlockIndex) (ft : Int)
    (p : ConsensusParams) (hnr : p.fPowNoRetargeting = false)
    (hpl : p.powLimit < 2 ^ 256) :
    (SetCompact (CalculateNextWorkRequired tip ft p)).target ≤ p.powLimit := by
  have hcap : cappedNewTarget tip.nBits
      (clampTimespan p.nPowTargetTimespan (tip.GetBlockTime - ft))
      p.nPowTargetTimespan p.powLimit ≤ p.powLimit := by
    simp only [cappedNewTarget]
    split_ifs <;> omega
  have hround := (setCompact_getCompact_le _ (lt_of_le_of_lt hcap hpl)).1
  rw [CalculateNextWorkRequired, if_neg (by simp [hnr])]
  exact le_trans hround hcap

/-- Witness for the amended C7. -/
theorem calculateNextWorkRequired_le_powLimit_witness :
    pNoMin.fPowNoRetargeting = false ∧ pNoMin.powLimit < 2 ^ 256 ∧
      (SetCompact (CalculateNextWorkRequired (CBlockIndex.root 0 100 0x03000001) 0
        pNoMin)).target ≤ pNoMin.powLimit :=
  ⟨rfl, by decide,
    calculateNextWorkRequired_le_powLimit (CBlockIndex.root 0 100 0x03000001) 0
      pNoMin rfl (by decide)⟩

/-- C8: for a fixed previous target and params, and two already-clamped
timespans with the first smaller, the capped new target from the first is at
most the capped new target from the second. -/
theorem cappedNewTarget_monotone (nBits : Nat) (ts1 ts2 tt : Int) (L : Nat)
    (htt : 0 < tt) (hlo : Int.tdiv tt 4 ≤ ts1) (hlt : ts1 < ts2)
    (hhi : ts2 ≤ tt * 4) :
    cappedNewTarget nBits ts1 tt L ≤ cappedNewTarget nBits ts2 tt L := by
  have hmono : newTargetRaw nBits ts1 tt ≤ newTargetRaw nBits ts2 tt := by
    simp only [newTargetRaw]
    exact Nat.div_le_div_right
      (Nat.mul_le_mul_left _ (by omega : ts1.toNat ≤ ts2.toNat))
  simp only [cappedNewTarget]
  split_ifs <;> omega

/-- Witness for C8 at timespans 3 and 5 with `targetTimespan = 8`. -/
theorem cappedNewTarget_monotone_witness :
    (0 : Int) < 8 ∧ Int.tdiv 8 4 ≤ (3 : Int) ∧ (3 : Int) < 5 ∧ (5 : Int) ≤ 8 * 4 ∧
      cappedNewTarget 0x03000005 3 8 100 ≤ cappedNewTarget 0x03000005 5 8 100 :=
  ⟨by decide, by decide, by decide, by decide,
    cappedNewTarget_monotone 0x03000005 3 5 8 100 (by decide) (by decide)
      (by decide) (by decide)⟩

/-- Counterexample to C9 as stated: the capped value `2^32 * 3 / 7` is produced
by the retarget computation and lies below `powLimit`, yet decoding its compact
encoding does not reproduce it (the encoding keeps only the top three
significant bytes). -/
theorem retarget_roundtrip_drift :
    cappedNewTarget tipC9.nBits 3 7 pC9.powLimit ≤ pC9.powLimit ∧
      CalculateNextWorkRequired tipC9 0 pC9 =
        GetCompact (cappedNewTarget tipC9.nBits 3 7 pC9.powLimit) ∧
      (SetCompact (GetCompact (cappedNewTarget tipC9.nBits 3 7
        pC9.powLimit))).target ≠ cappedNewTarget tipC9.nBits 3 7 pC9.powLimit := by
  decide

/-- C9 as amended: for every 256-bit target (in particular every capped value
the retarget computation produces under a 256-bit `powLimit`), decoding the
compact encoding yields overflow false and a target at most the original;
exact equality can fail, since encoding keeps only the top three significant
bytes. -/
theorem getCompact_roundtrip_le (t : Nat) (ht : t < 2 ^ 256) :
    (SetCompact (GetCompact t)).target ≤ t ∧
      (SetCompact (GetCompact t)).overflow = false :=
  setCompact_getCompact_le t ht

/-- Witness for the amended C9 at `t = 12345`. -/
theorem getCompact_roundtrip_le_witness :
    (12345 : Nat) < 2 ^ 256 ∧
      ((SetCompact (GetCompact 12345)).target ≤ 12345 ∧
        (SetCompact (GetCompact 12345)).overflow = false) :=
  ⟨by decide, getCompact_roundtrip_le 12345 (by decide)⟩

/-- C10: the minimum-difficulty walk also stops at a block with no parent: on a
chain consisting entirely of non-boundary minimum-difficulty blocks,
`GetNextWorkRequired` terminates at the parentless root and returns that
block's bits (the loop tests the parent link before following it, so no absent
parent is ever dereferenced). -/
theorem getNextWorkRequired_walk_stops_at_root (tip : CBlockIndex) (t : Int)
    (p : ConsensusParams)
    (hb : Int.tmod (tip.nHeight + 1) p.DifficultyAdjustmentInterval ≠ 0)
    (hmin : p.fPowAllowMinDifficultyBlocks = true)
    (hgap : ¬ t > tip.GetBlockTime + p.nPowTargetSpacing * 2)
    (hall : ∀ a ∈ ancestors tip,
      Int.tmod a.nHeight p.DifficultyAdjustmentInterval ≠ 0 ∧
        a.nBits = GetCompact p.powLimit) :
    GetNextWorkRequired tip t p = some (lastAncestor tip).nBits ∧
      (lastAncestor tip).pprev = none := by
  refine ⟨?_, lastAncestor_pprev tip⟩
  have hwalk := minDifficultyWalk_all p.DifficultyAdjustmentInterval
    (GetCompact p.powLimit) tip hall
  simp [GetNextWorkRequired, hb, hmin, hgap, hwalk]

/-- Witness for C10: a two-block all-minimum-difficulty chain returns the
parentless root's bits. -/
theorem getNextWorkRequired_walk_stops_at_root_witness :
    (∀ a ∈ ancestors tipC10,
      Int.tmod a.nHeight pI4.DifficultyAdjustmentInterval ≠ 0 ∧
        a.nBits = GetCompact pI4.powLimit) ∧
      (GetNextWorkRequired tipC10 11 pI4 = some (lastAncestor tipC10).nBits ∧
        (lastAncestor tipC10).pprev = none) :=
  ⟨by decide,
    getNextWorkRequired_walk_stops_at_root tipC10 11 pI4 (by decide) (by decide)
      (by decide) (by decide)⟩
